/-
  Spec2Proof.lean — verification of the ZayCode CLI core against its
  natural-language specification.

  Shallow embedding conventions:
  * JS strings are Lean `String`s (sequences of characters; JS indexes
    UTF-16 code units, but every literal involved here is ASCII, where the
    two notions of character agree).
  * The intent weights of the source are the decimal literals 1.5, 1.4,
    1.3, 1.2, 1.0; a score s is represented by the integer 20*s, which is
    exact rational arithmetic.  (JS computes in IEEE doubles; every
    comparison proved below is between sums that differ by at least 1/20,
    far above double rounding error, so the integer model and the doubles
    agree on all of them.)
  * Fallible JS code (functions that may `throw`) returns `Except String α`;
    a `try`/`catch` call site inspects the `Except`.  A function whose body
    catches everything returns a plain (non-`Except`) value.
  * Mutating methods become functions from the old field values to the new.
-/
import Mathlib

namespace ZayCode

/-! ### Small string helpers shared by several components -/

/-- Does `pat` occur as a contiguous block inside `s`?  (List level.) -/
def occursIn (pat : List Char) : List Char → Bool
  | [] => pat.isEmpty
  | c :: t => pat.isPrefixOf (c :: t) || occursIn pat t

/-- JS `s.includes(pat)`: substring containment. -/
def includesStr (s pat : String) : Bool :=
  occursIn pat.data s.data

/-- JS `Array.prototype.join(', ')` over a list of strings
    (source: `Object.keys(TOOL_HANDLERS).join(', ')`). -/
def joinComma : List String → String
  | [] => ""
  | [n] => n
  | n :: rest => n ++ ", " ++ joinComma rest

example : includesStr "API error (402): x" "402" = true := by decide
example : includesStr "Unauthorized" "402" = false := by decide
example : joinComma ["a", "b", "c"] = "a, b, c" := by rfl

/-- `occursIn` is sound: an occurrence is an infix. -/
theorem occursIn_correct (pat s : List Char) :
    occursIn pat s = true ↔ pat <:+: s := by
  induction s with
  | nil =>
    simp [occursIn, List.isEmpty_iff, List.infix_nil]
  | cons c t ih =>
    simp only [occursIn, Bool.or_eq_true, List.isPrefixOf_iff_prefix, ih]
    constructor
    · rintro (h | h)
      · exact List.IsPrefix.isInfix h
      · exact h.trans (List.IsSuffix.isInfix (List.suffix_cons c t))
    · rintro ⟨pre, suf, h⟩
      cases pre with
      | nil => exact Or.inl ⟨suf, by simpa using h⟩
      | cons p ps =>
        refine Or.inr ⟨ps, suf, ?_⟩
        simpa using congrArg List.tail h

/-- Every joined name occurs inside the `join ', '` of the name list. -/
theorem mem_infix_joinComma {n : String} :
    ∀ {names : List String}, n ∈ names → n.data <:+: (joinComma names).data
  | [], h => absurd h (List.not_mem_nil n)
  | [m], h => by
      rcases List.mem_singleton.mp h with rfl
      exact List.infix_refl _
  | m :: m2 :: rest2, h => by
      rcases List.mem_cons.mp h with rfl | h
      · refine ⟨[], (", " ++ joinComma (m2 :: rest2)).data, ?_⟩
        simp [joinComma, String.data_append]
      · refine (mem_infix_joinComma h).trans
          (List.IsSuffix.isInfix ⟨(m ++ ", ").data, ?_⟩)
        simp [joinComma, String.data_append]

/-! ### ToolDispatcher — core/executor.js (inside src/core/configManager.js) -/

/-- The normalised outcome shape of `execute`:
    `{ success: boolean, result: any, error?: string }`. -/
structure ExecResult (β : Type) where
  success : Bool
  result : Option β
  error : Option String
  deriving Repr, DecidableEq

/-- A tool handler: an async function `(args) -> result` that either
    resolves (`.ok`) or throws (`.error message`).  Handlers are external
    collaborators; the dispatcher only depends on this contract. -/
def Handler (α β : Type) := α → Except String β

/-- The `TOOL_HANDLERS` registry: a string-keyed object, keys in insertion
    order, looked up by name. -/
def Registry (α β : Type) := List (String × Handler α β)

def registryKeys {α β : Type} (reg : Registry α β) : List String :=
  (reg : List _).map Prod.fst

/-- The failure message for an unregistered name (executor.js line 291):
    `Unknown tool: ${name}. Available tools: ${Object.keys(TOOL_HANDLERS).join(', ')}`. -/
def unknownToolMsg {α β : Type} (reg : Registry α β) (name : String) : String :=
  "Unknown tool: " ++ name ++ ". Available tools: " ++ joinComma (registryKeys reg)

/-- executor.js `execute(toolCall)` (lines 283-309 of the concatenated
    configManager module).  The body catches every exception, so the return
    type is a plain `ExecResult`, not an `Except`: totality of this
    function is the embedding of "the dispatcher never propagates". -/
def execute {α β : Type} (reg : Registry α β) (name : String) (args : α) :
    ExecResult β :=
  match (reg : List _).lookup name with
  | none =>
      { success := false, result := none, error := some (unknownToolMsg reg name) }
  | some handler =>
      match handler args with
      | .ok r => { success := true, result := some r, error := none }
      | .error m =>
          { success := false, result := none,
            error := some ("Tool '" ++ name ++ "' failed: " ++ m) }

/-- C4: `execute` never propagates an exception — an unregistered name
    yields `success:false` with an error message in which every currently
    known tool name occurs, and a handler that throws is converted into
    `success:false` carrying the thrown message. -/
theorem execute_total_and_normalises {α β : Type}
    (reg : Registry α β) (name : String) (args : α) :
    ((reg : List _).lookup name = none →
       execute reg name args =
         { success := false, result := none, error := some (unknownToolMsg reg name) } ∧
       ∀ k ∈ registryKeys reg, k.data <:+: (unknownToolMsg reg name).data) ∧
    (∀ (h : Handler α β) (m : String),
       (reg : List _).lookup name = some h → h args = .error m →
       execute reg name args =
         { success := false, result := none,
           error := some ("Tool '" ++ name ++ "' failed: " ++ m) }) := by
  constructor
  · intro hnone
    constructor
    · simp [execute, hnone]
    · intro k hk
      refine (mem_infix_joinComma hk).trans
        (List.IsSuffix.isInfix ⟨("Unknown tool: " ++ name ++ ". Available tools: ").data, ?_⟩)
      simp [unknownToolMsg, String.data_append]
  · intro h m hsome herr
    simp [execute, hsome, herr]

/-- Witness for C4 at a concrete two-tool registry: dispatching the
    unregistered name "nope" fails with a message in which the known name
    "read_file" occurs, and the registered handler "boom" that throws is
    converted into a failure result. -/
theorem execute_total_and_normalises_witness :
    (execute (α := Unit) (β := Nat)
        [("read_file", fun _ => .ok 1), ("boom", fun _ => .error "kaput")]
        "nope" ()).success = false ∧
    "read_file".data <:+:
      (unknownToolMsg (α := Unit) (β := Nat)
        [("read_file", fun _ => .ok 1), ("boom", fun _ => .error "kaput")] "nope").data ∧
    execute (α := Unit) (β := Nat)
        [("read_file", fun _ => .ok 1), ("boom", fun _ => .error "kaput")]
        "boom" () =
      { success := false, result := none, error := some "Tool 'boom' failed: kaput" } := by
  refine ⟨?_, ?_, ?_⟩
  · have h := (execute_total_and_normalises (α := Unit) (β := Nat)
      [("read_file", fun _ => .ok 1), ("boom", fun _ => .error "kaput")] "nope" ()).1
      (by rfl)
    rw [h.1]
  · have h := (execute_total_and_normalises (α := Unit) (β := Nat)
      [("read_file", fun _ => .ok 1), ("boom", fun _ => .error "kaput")] "nope" ()).1
      (by rfl)
    exact h.2 "read_file" (by simp [registryKeys])
  · exact (execute_total_and_normalises (α := Unit) (β := Nat)
      [("read_file", fun _ => .ok 1), ("boom", fun _ => .error "kaput")] "boom" ()).2
      _ "kaput" (by rfl) (by rfl)

/-- Argument shape of the `mcp_call_tool` builtin. -/
structure McpArgs where
  server : String
  tool : String
  deriving Repr, DecidableEq

/-- Payload returned (not thrown!) by the `mcp_call_tool` builtin. -/
structure McpCallResult where
  success : Bool
  error : String
  deriving Repr, DecidableEq

/-- executor.js lines 210-212: the handler resolves normally with a
    `{ success:false, error: ... }` payload — it does not throw. -/
def mcp_call_tool : Handler McpArgs McpCallResult :=
  fun _ => .ok ⟨false, "MCP tool execution requires an active server connection"⟩

/-- C9: a handler that resolves yields `success:true` with the resolved
    value as the payload — even when that payload is itself a failure
    object, as for the builtin `mcp_call_tool`; dispatch-level failure
    arises only from an unknown name or a thrown exception. -/
theorem execute_success_wraps_payload {α β : Type}
    (reg : Registry α β) (name : String) (args : α) :
    (∀ (h : Handler α β) (v : β),
       (reg : List _).lookup name = some h → h args = .ok v →
       execute reg name args = { success := true, result := some v, error := none }) ∧
    (∀ a : McpArgs,
       execute [("mcp_call_tool", mcp_call_tool)] "mcp_call_tool" a =
         { success := true,
           result := some ⟨false, "MCP tool execution requires an active server connection"⟩,
           error := none }) := by
  constructor
  · intro h v hsome hok
    simp [execute, hsome, hok]
  · intro a
    rfl

/-- Witness for C9: a registry whose handler resolves with the payload
    `42`, and the concrete `mcp_call_tool` dispatch whose payload carries
    `success:false` while the dispatch result has `success:true`. -/
theorem execute_success_wraps_payload_witness :
    execute (α := Unit) (β := Nat) [("t", fun _ => .ok 42)] "t" () =
      { success := true, result := some 42, error := none } ∧
    (execute [("mcp_call_tool", mcp_call_tool)] "mcp_call_tool" ⟨"s", "x"⟩).success = true ∧
    ((execute [("mcp_call_tool", mcp_call_tool)] "mcp_call_tool"
        ⟨"s", "x"⟩).result.map McpCallResult.success) = some false := by
  refine ⟨?_, ?_, ?_⟩
  · exact (execute_success_wraps_payload (α := Unit) (β := Nat)
      [("t", fun _ => .ok 42)] "t" ()).1 _ 42 (by rfl) (by rfl)
  · rw [(execute_success_wraps_payload (α := Unit) (β := Nat)
      [] "t" ()).2 ⟨"s", "x"⟩]
  · rw [(execute_success_wraps_payload (α := Unit) (β := Nat)
      [] "t" ()).2 ⟨"s", "x"⟩]
    rfl

/-! ### SessionState — core/state.js, and the self-healing guard of
    core/agent.js -/

/-- The state fields relevant to mode handling (core/state.js lines 18-33;
    initial mode is 'plan'). -/
structure AppStateS where
  mode : String
  manualOverride : Bool
  activeModel : Option String
  deriving Repr, DecidableEq

/-- core/state.js line 55. -/
def VALID_MODES : List String := ["auto", "code", "reason", "debug", "plan"]

/-- core/state.js `setMode` (lines 54-66): an invalid mode throws before
    any mutation (modelled as `.error`, so the caller's state binding is
    untouched); a valid mode is stored, and switching to 'auto' clears the
    manual override and the active model. -/
def setMode (s : AppStateS) (mode : String) : Except String AppStateS :=
  if VALID_MODES.contains mode then
    let s1 : AppStateS := { s with mode := mode }
    .ok (if mode = "auto" then { s1 with manualOverride := false, activeModel := none } else s1)
  else
    .error ("Invalid mode: " ++ mode ++ ". Valid: " ++ joinComma VALID_MODES)

/-- core/agent.js line 186: `const currentMode = state.prop('mode') || mode;`
    (JS `||` falls back to the routed mode only when the state's mode
    string is empty). -/
def currentModeOf (stateMode routedMode : String) : String :=
  if stateMode = "" then routedMode else stateMode

/-- core/agent.js line 187: the post-tool test-runner (self-healing) step
    runs iff some dispatched tool was state-mutating and the current mode
    equals 'build'. -/
def selfHealingTriggered (stateModified : Bool) (stateMode routedMode : String) : Bool :=
  stateModified && (currentModeOf stateMode routedMode == "build")

/-- C10: `setMode` throws (leaving the caller's state unchanged) for every
    mode outside {auto, code, reason, debug, plan} — in particular 'build'
    is rejected — while the agent loop's self-healing step runs only when
    the current session mode equals 'build'. -/
theorem setMode_rejects_invalid (s : AppStateS) (m : String) :
    (m ∉ VALID_MODES →
       setMode s m = .error ("Invalid mode: " ++ m ++ ". Valid: " ++ joinComma VALID_MODES)) ∧
    setMode s "build" =
      .error ("Invalid mode: build. Valid: " ++ joinComma VALID_MODES) ∧
    (∀ (b : Bool) (st rm : String),
       selfHealingTriggered b st rm = true → currentModeOf st rm = "build") := by
  have key : ∀ m' : String, m' ∉ VALID_MODES →
      setMode s m' =
        .error ("Invalid mode: " ++ m' ++ ". Valid: " ++ joinComma VALID_MODES) := by
    intro m' hm
    have hc : VALID_MODES.contains m' = false := by
      cases hcontains : VALID_MODES.contains m' with
      | false => rfl
      | true => exact absurd (List.mem_of_elem_eq_true hcontains) hm
    simp only [setMode, hc, Bool.false_eq_true, if_false]
  refine ⟨key m, ?_, ?_⟩
  · exact key "build" (by decide)
  · intro b st rm h
    simp only [selfHealingTriggered, Bool.and_eq_true, beq_iff_eq] at h
    exact h.2

/-- Witness for C10: the mode 'build' is outside the valid list and is
    rejected from the initial state, and a self-healing trigger with state
    mode 'build' indeed has current mode 'build'. -/
theorem setMode_rejects_invalid_witness :
    setMode ⟨"plan", false, none⟩ "build" =
      .error ("Invalid mode: build. Valid: " ++ joinComma VALID_MODES) ∧
    currentModeOf "build" "code" = "build" := by
  constructor
  · exact ((setMode_rejects_invalid ⟨"plan", false, none⟩ "build").1 (by decide))
  · exact (setMode_rejects_invalid ⟨"plan", false, none⟩ "build").2.2
      true "build" "code" (by decide)

/-! ### ContextMemory — core/memory.js -/

/-- A tool invocation slot.  In the JS objects `name` and `arguments` are
    nested under a `function` field and `type` is the constant string
    `'function'`; both are flattened away here. -/
structure ToolCall where
  id : String
  name : String
  arguments : String
  deriving Repr, DecidableEq

/-- A conversation turn as stored by `Memory` (role, text content,
    optional tool-call list on assistant turns, optional correlation id on
    tool turns). -/
structure Msg where
  role : String
  content : String
  tool_calls : Option (List ToolCall) := none
  tool_call_id : Option String := none
  deriving Repr, DecidableEq

/-- memory.js line 10. -/
def MAX_MESSAGES : Nat := 50

/-- memory.js `_trim` (lines 109-113): `while (length > MAX) shift()`. -/
def trimLoop (l : List Msg) : List Msg :=
  if MAX_MESSAGES < l.length then trimLoop l.tail else l
termination_by l.length
decreasing_by
  rw [List.length_tail]
  omega

/-- The `while`/`shift` loop drops exactly the oldest overflow. -/
theorem trimLoop_eq_drop (l : List Msg) :
    trimLoop l = l.drop (l.length - MAX_MESSAGES) := by
  by_cases h : MAX_MESSAGES < l.length
  · rw [trimLoop, if_pos h, trimLoop_eq_drop l.tail, ← List.drop_one,
      List.drop_drop]
    congr 1
    simp only [List.length_drop]
    omega
  · rw [trimLoop, if_neg h]
    have : l.length - MAX_MESSAGES = 0 := by omega
    rw [this, List.drop_zero]
termination_by l.length
decreasing_by
  rw [List.length_tail]
  omega

/-- memory.js `addUser` (lines 40-44): push, then trim.  (`_saveToDisk`
    is external persistence and does not touch `_messages`.) -/
def addUser (msgs : List Msg) (content : String) : List Msg :=
  trimLoop (msgs ++ [{ role := "user", content := content }])

/-- memory.js `addAssistant` (lines 47-55): the `tool_calls` field is set
    only when the list is non-empty (`toolCalls && toolCalls.length > 0`). -/
def addAssistant (msgs : List Msg) (content : String)
    (toolCalls : Option (List ToolCall)) : List Msg :=
  let tcs : Option (List ToolCall) :=
    match toolCalls with
    | some ts => if 0 < ts.length then some ts else none
    | none => none
  trimLoop (msgs ++ [{ role := "assistant", content := content, tool_calls := tcs }])

/-- memory.js `addToolResult` (lines 58-66). -/
def addToolResult (msgs : List Msg) (toolCallId : String) (content : String) :
    List Msg :=
  trimLoop (msgs ++ [{ role := "tool", content := content,
                       tool_call_id := some toolCallId }])

/-- C7: after every turn-adding mutation the stored count never exceeds
    the hard cap of 50, and each mutation equals appending the new turn
    and dropping the oldest overflow, so an addition that would exceed the
    cap leaves exactly 50 turns, oldest dropped first. -/
theorem memory_hard_cap (msgs : List Msg) (c : String)
    (tcs : Option (List ToolCall)) (cid : String) :
    ((addUser msgs c).length = min (msgs.length + 1) MAX_MESSAGES ∧
      addUser msgs c =
        (msgs ++ [({ role := "user", content := c } : Msg)]).drop
          (msgs.length + 1 - MAX_MESSAGES)) ∧
    ((addAssistant msgs c tcs).length = min (msgs.length + 1) MAX_MESSAGES) ∧
    ((addToolResult msgs cid c).length = min (msgs.length + 1) MAX_MESSAGES) ∧
    (addUser msgs c).length ≤ MAX_MESSAGES ∧
    (addAssistant msgs c tcs).length ≤ MAX_MESSAGES ∧
    (addToolResult msgs cid c).length ≤ MAX_MESSAGES := by
  have len : ∀ l : List Msg, (trimLoop l).length = min l.length MAX_MESSAGES := by
    intro l
    rw [trimLoop_eq_drop, List.length_drop]
    omega
  have lenApp : ∀ (l : List Msg) (m : Msg),
      (l ++ [m]).length = l.length + 1 := by
    intro l m
    simp
  refine ⟨⟨?_, ?_⟩, ?_, ?_, ?_, ?_, ?_⟩
  · simp only [addUser]; rw [len, lenApp]
  · simp only [addUser]; rw [trimLoop_eq_drop, lenApp]
  · simp only [addAssistant]; rw [len, lenApp]
  · simp only [addToolResult]; rw [len, lenApp]
  · simp only [addUser]; rw [len, lenApp]; omega
  · simp only [addAssistant]; rw [len, lenApp]; omega
  · simp only [addToolResult]; rw [len, lenApp]; omega

/-- Synthetic marker turn inserted by `prune` (memory.js line 128),
    recording how many turns were dropped. -/
def pruneMarker (dropped : Nat) : Msg :=
  { role := "user",
    content := "... (system: " ++ toString dropped ++
      " messages pruned for context efficiency) ..." }

/-- memory.js `prune` (lines 116-133) at the factor 0.5 used by every call
    site (agent.js line 68, the default, and the test): in doubles
    `Math.floor(len * (1 - 0.5))` is exactly `len / 2` in integers.
    `slice(-recentToKeep)` is the last `recentToKeep` elements; the
    `length < 10` guard makes `recentToKeep ≥ 3`, so the `slice(-0)`
    corner of JS cannot arise. -/
def prune05 (msgs : List Msg) : List Msg :=
  if msgs.length < 10 then msgs
  else
    let keepCount := msgs.length / 2
    let recentToKeep := (keepCount + 1) / 2   -- Math.ceil(keepCount / 2)
    let oldestToKeep := keepCount - recentToKeep
    msgs.take oldestToKeep
      ++ [pruneMarker (msgs.length - keepCount)]
      ++ msgs.drop (msgs.length - recentToKeep)

/-- C6: at or above the 10-turn minimum, pruning yields the oldest-retained
    block, exactly one synthetic marker turn recording the number dropped,
    and the unchanged newest turns; the result has `len/2 + 1` turns (11 for
    20, fewer than 20); below 10 turns the history is untouched. -/
theorem prune_structure (msgs : List Msg) :
    (msgs.length < 10 → prune05 msgs = msgs) ∧
    (10 ≤ msgs.length →
       prune05 msgs =
         msgs.take (msgs.length / 2 - (msgs.length / 2 + 1) / 2)
           ++ [pruneMarker (msgs.length - msgs.length / 2)]
           ++ msgs.drop (msgs.length - (msgs.length / 2 + 1) / 2) ∧
       (prune05 msgs).length = msgs.length / 2 + 1 ∧
       (prune05 msgs).length < msgs.length) ∧
    (msgs.length = 20 →
       (prune05 msgs).length = 11 ∧ (prune05 msgs).length < 20) := by
  have hlen : 10 ≤ msgs.length →
      (prune05 msgs).length = msgs.length / 2 + 1 := by
    intro h
    rw [prune05, if_neg (by omega)]
    simp only [List.length_append, List.length_take, List.length_drop,
      List.length_singleton]
    omega
  refine ⟨?_, fun h => ⟨?_, hlen h, ?_⟩, fun h => ⟨?_, ?_⟩⟩
  · intro h
    rw [prune05, if_pos h]
  · rw [prune05, if_neg (by omega)]
  · rw [hlen h]
    omega
  · rw [hlen (by omega), h]
  · rw [hlen (by omega), h]
    omega

/-- Witness for C6 at a concrete 20-turn history. -/
theorem prune_structure_witness :
    (prune05 (List.replicate 20 { role := "assistant", content := "m" })).length = 11 ∧
    (prune05 (List.replicate 20 { role := "assistant", content := "m" })).length < 20 ∧
    prune05 (List.replicate 20 { role := "assistant", content := "m" }) =
      (List.replicate 20 { role := "assistant", content := "m" } : List Msg).take 5
        ++ [pruneMarker 10]
        ++ (List.replicate 20 { role := "assistant", content := "m" } : List Msg).drop 15 := by
  have h := prune_structure (List.replicate 20 { role := "assistant", content := "m" })
  have h20 : (List.replicate 20 ({ role := "assistant", content := "m" } : Msg)).length = 20 := by
    simp
  refine ⟨(h.2.2 h20).1, (h.2.2 h20).2, ?_⟩
  have := (h.2.1 (by rw [h20]; omega)).1
  rw [this, h20]

/-! ### Compressor — core/compressor.js, and `Memory.getMessages` -/

/-- Leading-newline run of a character list: its length and the rest. -/
def takeNl : List Char → Nat × List Char
  | [] => (0, [])
  | c :: cs =>
      if c = '\n' then
        let p := takeNl cs
        (p.1 + 1, p.2)
      else (0, c :: cs)

theorem takeNl_snd_length_le : ∀ cs : List Char, (takeNl cs).2.length ≤ cs.length := by
  intro cs
  induction cs with
  | nil => simp [takeNl]
  | cons c rest ih =>
    by_cases h : c = '\n'
    · simp only [takeNl, if_pos h]
      exact le_trans ih (Nat.le_succ _)
    · simp [takeNl, if_neg h]

/-- compressor.js line 26, `replace(/\n{3,}/g, '\n\n')`: every maximal run
    of three or more newlines becomes exactly two. -/
def collapseNl : List Char → List Char
  | [] => []
  | c :: cs =>
      if c = '\n' then
        (if 3 ≤ (takeNl cs).1 + 1 then ['\n', '\n']
         else List.replicate ((takeNl cs).1 + 1) '\n') ++ collapseNl (takeNl cs).2
      else c :: collapseNl cs
termination_by l => l.length
decreasing_by
  · simp only [List.length_cons]
    exact Nat.lt_succ_of_le (takeNl_snd_length_le _)
  · simp

/-- JS `split('\n')`. -/
def splitNl : List Char → List (List Char)
  | [] => [[]]
  | c :: cs =>
      let r := splitNl cs
      if c = '\n' then [] :: r
      else
        match r with
        | [] => [[c]]
        | l :: ls => (c :: l) :: ls

/-- compressor.js `compressContent` (lines 20-39).  The JS `!content`
    guard is subsumed by the length test, since the empty string has
    length 0 < 500; the two `&&`-chained conditions of Pattern 2 are
    nested `if`s here. -/
def compressContent (content : String) : String :=
  if content.length < 500 then content
  else
    let compressed : String := ⟨collapseNl content.data⟩
    if 2000 < compressed.length then
      if includesStr compressed "Error:" then compressed
      else
        let lines := splitNl compressed.data
        if 50 < lines.length then
          (⟨List.intercalate ['\n'] (lines.take 10)⟩ : String)
            ++ "\n\n... [Compressed by ZayCode Mastermind] ...\n\n"
            ++ (⟨List.intercalate ['\n'] (lines.drop (lines.length - 10))⟩ : String)
        else compressed
    else compressed

/-- compressor.js `compressHistory` (lines 44-70): per-index map over the
    outbound copy; the most recent three turns, user turns, and
    tool-error turns pass through untouched, everything else goes through
    `compressContent`.  (JS `index >= history.length - 3` treats a
    negative right side as satisfied; truncated `Nat` subtraction agrees.) -/
def compressHistory (history : List Msg) : List Msg :=
  history.mapIdx fun i msg =>
    if history.length - 3 ≤ i then msg
    else if msg.role = "user" ∨ (msg.role = "tool" ∧ includesStr msg.content "Error:") then msg
    else { msg with content := compressContent msg.content }

/-- memory.js `getMessages` (lines 69-80): optional system turn first,
    then the compressed copy of the stored history.  The method assigns
    nothing to `_messages` (the `map` makes shallow copies), so it is a
    pure function of the memory state: the stored turns are unchanged by
    construction. -/
def getMessages (sys : Option Msg) (history : List Msg) : List Msg :=
  (match sys with
   | some s => [s]
   | none => []) ++ compressHistory history

theorem compressHistory_length (history : List Msg) :
    (compressHistory history).length = history.length := by
  simp [compressHistory]

theorem compressHistory_getElem (history : List Msg) (i : Nat)
    (hi : i < history.length) :
    (compressHistory history)[i]? =
      some (if history.length - 3 ≤ i then history[i]
       else if history[i].role = "user" ∨
              (history[i].role = "tool" ∧ includesStr history[i].content "Error:") then
         history[i]
       else { history[i] with content := compressContent history[i].content }) := by
  have hi2 : i < (compressHistory history).length := by
    rw [compressHistory_length]
    exact hi
  rw [List.getElem?_eq_getElem hi2]
  congr 1
  simp [compressHistory]

/-- C8: building the outbound list prepends the optional system turn to a
    compressed copy of the stored history, keeping the stored list itself
    intact; in that copy the most recent 3 turns, every user turn, and
    every tool turn whose content contains 'Error:' are the stored
    originals, and any other turn is the original with `compressContent`
    applied to its content — the identity whenever the content is under
    the 500-character threshold. -/
theorem getMessages_compression (sys : Option Msg) (history : List Msg)
    (i : Nat) (hi : i < history.length) :
    getMessages sys history = sys.toList ++ compressHistory history ∧
    (compressHistory history).length = history.length ∧
    (history.length - 3 ≤ i →
       (compressHistory history)[i]? = some history[i]) ∧
    (history[i].role = "user" →
       (compressHistory history)[i]? = some history[i]) ∧
    (history[i].role = "tool" → includesStr history[i].content "Error:" = true →
       (compressHistory history)[i]? = some history[i]) ∧
    (i < history.length - 3 → history[i].role ≠ "user" →
     ¬(history[i].role = "tool" ∧ includesStr history[i].content "Error:" = true) →
       (compressHistory history)[i]? =
         some { history[i] with content := compressContent history[i].content } ∧
       (history[i].content.length < 500 →
          (compressHistory history)[i]? = some history[i])) := by
  have key := compressHistory_getElem history i hi
  refine ⟨?_, compressHistory_length history, ?_, ?_, ?_, ?_⟩
  · cases sys <;> rfl
  · intro h
    rw [key, if_pos h]
  · intro h
    by_cases h3 : history.length - 3 ≤ i
    · rw [key, if_pos h3]
    · rw [key, if_neg h3, if_pos (Or.inl h)]
  · intro hrole herr
    by_cases h3 : history.length - 3 ≤ i
    · rw [key, if_pos h3]
    · rw [key, if_neg h3, if_pos (Or.inr ⟨hrole, herr⟩)]
  · intro h3 hu ht
    have hcond : ¬(history[i].role = "user" ∨
        (history[i].role = "tool" ∧ includesStr history[i].content "Error:")) := by
      rintro (h | h)
      · exact hu h
      · exact ht ⟨h.1, h.2⟩
    constructor
    · rw [key, if_neg (by omega), if_neg hcond]
    · intro hshort
      rw [key, if_neg (by omega), if_neg hcond]
      have : compressContent history[i].content = history[i].content := by
        rw [compressContent, if_pos hshort]
      rw [this]

/-- Witness for C8 at a concrete 5-turn history: index 0 is an assistant
    turn (not recent, not user, not a tool error), and its short content
    passes through unchanged. -/
theorem getMessages_compression_witness :
    getMessages (some { role := "system", content := "sys" })
        [{ role := "assistant", content := "a0" },
         { role := "user", content := "u1" },
         { role := "tool", content := "Error: no", tool_call_id := some "c" },
         { role := "assistant", content := "a3" },
         { role := "user", content := "u4" }] =
      ({ role := "system", content := "sys" } : Msg) ::
        [{ role := "assistant", content := "a0" },
         { role := "user", content := "u1" },
         { role := "tool", content := "Error: no", tool_call_id := some "c" },
         { role := "assistant", content := "a3" },
         { role := "user", content := "u4" }] ∧
    (compressHistory
        [{ role := "assistant", content := "a0" },
         { role := "user", content := "u1" },
         { role := "tool", content := "Error: no", tool_call_id := some "c" },
         { role := "assistant", content := "a3" },
         { role := "user", content := "u4" }])[0]? =
      some { role := "assistant", content := "a0" } := by
  constructor
  · have h := (getMessages_compression (some { role := "system", content := "sys" })
      [{ role := "assistant", content := "a0" },
       { role := "user", content := "u1" },
       { role := "tool", content := "Error: no", tool_call_id := some "c" },
       { role := "assistant", content := "a3" },
       { role := "user", content := "u4" }] 0 (by decide)).1
    rw [h]
    rfl
  · have h := (getMessages_compression (some { role := "system", content := "sys" })
      [{ role := "assistant", content := "a0" },
       { role := "user", content := "u1" },
       { role := "tool", content := "Error: no", tool_call_id := some "c" },
       { role := "assistant", content := "a3" },
       { role := "user", content := "u4" }] 0 (by decide)).2.2.2.2.2
    exact (h (by decide) (by decide) (by decide)).2 (by decide)

/-! ### IntentRouter — core/router.js (inside src/core/configManager.js)

    The scoring weights of the source are the double literals 1.5, 1.4,
    1.3, 1.3, 1.2, 1.0; a score s is represented here as the integer 20*s
    (30, 28, 26, 26, 24, 20), with the phrase bonus `weight * 1.5`
    becoming `3 * weight / 2` (exact: all scaled weights are even), and
    the `maxScore = -1` sentinel becoming -20. -/

/-- JS regex `\w`: ASCII letters, digits, underscore. -/
def isWordChar (c : Char) : Bool := c.isAlphanum || c = '_'

/-- JS regex `\s` (the ASCII part; all inputs considered are ASCII). -/
def isSpaceJs (c : Char) : Bool :=
  c = ' ' || c = '\t' || c = '\n' || c = '\r' || c = '\x0b' || c = '\x0c'

/-- Case-insensitive character comparison (the regex `i` flag). -/
def chEq (a b : Char) : Bool := a.toLower = b.toLower

/-- JS `toLowerCase()` (ASCII). -/
def toLowerStr (s : String) : String := ⟨s.data.map Char.toLower⟩

/-- Split a character list at single spaces (the source turns each space
    of a keyword into `\s+` via `keyword.replace(/ /g, '\\s+')`). -/
def splitSp : List Char → List (List Char)
  | [] => [[]]
  | c :: cs =>
      let r := splitSp cs
      if c = ' ' then [] :: r
      else
        match r with
        | [] => [[c]]
        | l :: ls => (c :: l) :: ls

/-- Consume `w` case-insensitively from the front of `s`. -/
def stripWord : List Char → List Char → Option (List Char)
  | [], s => some s
  | _ :: _, [] => none
  | k :: ks, c :: cs => if chEq k c then stripWord ks cs else none

/-- Consume `\s+` (one or more whitespace, greedily; the following token
    is always a letter word, so greediness loses no matches). -/
def stripGap : List Char → Option (List Char)
  | [] => none
  | c :: cs =>
      if isSpaceJs c then some (cs.dropWhile fun d => isSpaceJs d) else none

/-- Consume `\s+ word` repeatedly (the tail words of a multi-word keyword). -/
def matchTail : List (List Char) → List Char → Option (List Char)
  | [], s => some s
  | w :: ws, s =>
      match stripGap s with
      | none => none
      | some s1 =>
          match stripWord w s1 with
          | none => none
          | some s2 => matchTail ws s2

/-- Consume the full token sequence of a keyword. -/
def matchTokens : List (List Char) → List Char → Option (List Char)
  | [], s => some s
  | w :: ws, s => (stripWord w s).bind (matchTail ws)

/-- Word-boundary-delimited match exactly at this position: `prev` is the
    character before the position (none at the string start). -/
def testAt (ws : List (List Char)) (prev : Option Char) (s : List Char) : Bool :=
  (match prev with
   | none => true
   | some c => !isWordChar c) &&
  (match matchTokens ws s with
   | none => false
   | some [] => true
   | some (c :: _) => !isWordChar c)

/-- Scan every position of `s` for a boundary-delimited match. -/
def scanFrom (ws : List (List Char)) (prev : Option Char) (s : List Char) : Bool :=
  testAt ws prev s ||
    (match s with
     | [] => false
     | c :: cs => scanFrom ws (some c) cs)

/-- router.js line 1017:
    `new RegExp('\\b' + keyword.replace(/ /g, '\\s+') + '\\b', 'i').test(prompt)`.
    Keywords are nonempty letter words separated by single spaces (no other
    regex metacharacters occur), so boundary + words + whitespace gaps is
    the entire regex semantics. -/
def keywordTest (keyword prompt : String) : Bool :=
  scanFrom (splitSp keyword.data) none prompt.data

/-- Number of maximal whitespace runs (the `inRun` flag says whether the
    previous character was whitespace). -/
def countWsRuns : List Char → Bool → Nat
  | [], _ => 0
  | c :: cs, inRun =>
      if isSpaceJs c then (if inRun then 0 else 1) + countWsRuns cs true
      else countWsRuns cs false

/-- JS `s.split(/\s+/).length`: one more than the number of separator
    matches, i.e. of maximal whitespace runs (leading/trailing runs
    produce empty elements, exactly as in JS). -/
def wordCountJs (s : String) : Nat := 1 + countWsRuns s.data false

/-- One entry of the INTENTS table (router.js lines 960-997). -/
structure Intent where
  mode : String
  keywords : List String
  phrases : List String
  weight : Int
  deriving Repr

/-- router.js lines 960-997 (weights scaled by 20, see above). -/
def INTENTS : List Intent := [
  ⟨"debug",
    ["debug", "error", "bug", "fix", "crash", "exception", "stack trace",
     "broken", "runtime error", "segfault", "undefined"],
    ["not working", "fix this bug", "why is this broken", "line number"], 30⟩,
  ⟨"optimize",
    ["optimize", "performance", "slow", "fast", "complexity", "bottleneck",
     "big o", "latency", "efficient"],
    ["make it faster", "run better", "speed up"], 28⟩,
  ⟨"data",
    ["data", "analysis", "stats", "csv", "json", "explore", "clean",
     "visualize", "graph", "plot", "statistic"],
    ["analyze this data", "summarize the statistics"], 26⟩,
  ⟨"plan",
    ["plan", "architect", "roadmap", "outline", "strategy", "structure",
     "organize", "architecture"],
    ["how should i", "best approach", "design a system", "module structure",
     "breakdown the steps"], 26⟩,
  ⟨"reason",
    ["explain", "why", "compare", "analyze", "understand", "logic",
     "tradeoff", "consequence"],
    ["difference between", "pros and cons", "what happens if",
     "how does this work"], 24⟩,
  ⟨"code",
    ["write", "create", "build", "implement", "code", "function", "class",
     "refactor", "component", "api"],
    ["add a feature", "new module", "generate a test", "write a function"], 20⟩]

/-- router.js line 1007: `INTENTS.find(i => i.mode === 'code').keywords`. -/
def codeKeywords : List String :=
  ((INTENTS.find? fun it => it.mode == "code").map Intent.keywords).getD []

/-- Score of one intent: weight per whole-word keyword match on the raw
    prompt, 1.5×weight per phrase substring match on the lowered prompt
    (router.js lines 1014-1032). -/
def modeScore (prompt : String) (it : Intent) : Int :=
  it.weight * ((it.keywords.filter fun k => keywordTest k prompt).length : Int) +
    (3 * it.weight / 2) *
      ((it.phrases.filter fun ph => includesStr (toLowerStr prompt) ph).length : Int)

/-- `hasMatch`: some keyword or phrase of some intent matched. -/
def hasMatch (prompt : String) : Bool :=
  INTENTS.any fun it =>
    (it.keywords.any fun k => keywordTest k prompt) ||
      (it.phrases.any fun ph => includesStr (toLowerStr prompt) ph)

def modeScoreByName (prompt : String) (m : String) : Int :=
  match INTENTS.find? fun it => it.mode == m with
  | some it => modeScore prompt it
  | none => 0

/-- The `scores` object in its insertion order (router.js line 1011):
    `{ debug, plan, reason, code, data, optimize }`, as iterated by
    `Object.entries`. -/
def entriesFor (prompt : String) : List (String × Int) :=
  ["debug", "plan", "reason", "code", "data", "optimize"].map
    fun m => (m, modeScoreByName prompt m)

/-- router.js lines 1037-1046: `bestMode = 'code'; maxScore = -1;` then
    take the first strictly greater score in entry order. -/
def pickBest (entries : List (String × Int)) : String :=
  (entries.foldl (fun acc e => if acc.2 < e.2 then e else acc) ("code", -20)).1

/-- The scoring part of `classifyIntent` (after the short-prompt check):
    `reason` when nothing matched, else the best-scoring mode. -/
def classifyScoring (prompt : String) : String :=
  if hasMatch prompt then pickBest (entriesFor prompt) else "reason"

/-- router.js `classifyIntent` (lines 1002-1047).  Note that the
    short-prompt check uses `lowerPrompt.includes(k)` — plain substring
    containment — not the whole-word regex used by the scoring loops. -/
def classifyIntent (prompt : String) : String :=
  if wordCountJs (toLowerStr prompt) < 6 &&
      !(codeKeywords.any fun k => includesStr (toLowerStr prompt) k) then
    "reason"
  else classifyScoring prompt

example : keywordTest "fix" "prefix the name" = false := by decide
example : keywordTest "fix" "fix this" = true := by decide
example : keywordTest "stack trace" "the stack  trace here" = true := by decide
example : wordCountJs "why is this" = 3 := by decide
example : classifyIntent "why is this" = "reason" := by decide
example : classifyIntent "refactor this function to be more efficient" = "code" := by decide

/-- C5 counterexample: "debug rapid" is shorter than six words and no
    authoring (code) keyword occurs in it as a whole word — the claim
    would therefore have it default to the reasoning mode — yet the
    router classifies it as 'debug', because the authoring-keyword check
    matched 'api' as a substring inside the unrelated word 'rapid'. -/
theorem classifyIntent_wholeword_counterexample :
    wordCountJs (toLowerStr "debug rapid") < 6 ∧
    (∀ k ∈ codeKeywords, keywordTest k "debug rapid" = false) ∧
    includesStr (toLowerStr "debug rapid") "api" = true ∧
    classifyIntent "debug rapid" = "debug" ∧
    classifyIntent "debug rapid" ≠ "reason" := by decide

theorem stripWord_sound :
    ∀ (w s r : List Char), stripWord w s = some r →
      ∃ mid, s = mid ++ r ∧ List.Forall₂ (fun a b => chEq a b = true) w mid
  | [], s, r, h => by
      refine ⟨[], ?_, List.Forall₂.nil⟩
      simpa [stripWord] using h
  | _ :: _, [], r, h => by
      simp [stripWord] at h
  | k :: ks, c :: cs, r, h => by
      by_cases hc : chEq k c = true
      · simp only [stripWord, if_pos hc] at h
        obtain ⟨mid, hmid, hall⟩ := stripWord_sound ks cs r h
        exact ⟨c :: mid, by rw [hmid]; rfl, List.Forall₂.cons hc hall⟩
      · simp [stripWord, hc] at h

theorem scanFrom_sound :
    ∀ (ws : List (List Char)) (prev : Option Char) (s : List Char),
      scanFrom ws prev s = true →
      ∃ pre rest, s = pre ++ rest ∧
        testAt ws (pre.getLast? <|> prev) rest = true
  | ws, prev, [], h => by
      refine ⟨[], [], rfl, ?_⟩
      simpa [scanFrom] using h
  | ws, prev, c :: cs, h => by
      rw [scanFrom, Bool.or_eq_true] at h
      rcases h with h | h
      · exact ⟨[], c :: cs, rfl, by simpa using h⟩
      · obtain ⟨pre, rest, hsplit, htest⟩ := scanFrom_sound ws (some c) cs h
        refine ⟨c :: pre, rest, by rw [hsplit]; rfl, ?_⟩
        cases pre with
        | nil => simpa using htest
        | cons p ps => simpa [List.getLast?_cons_cons] using htest

/-- C5 (amended): in the per-mode scoring, a single-word keyword match is
    always a whole-word occurrence — there is an occurrence of the keyword
    in the prompt delimited by the string ends or non-word characters —
    but the authoring-keyword check for inputs shorter than six words uses
    plain substring containment: when no code keyword occurs even as a
    substring of such an input, it defaults to the reasoning mode. -/
theorem keyword_matching_amended (k p : String) :
    (splitSp k.data = [k.data] → keywordTest k p = true →
       ∃ pre mid rem, p.data = pre ++ mid ++ rem ∧
         List.Forall₂ (fun a b => chEq a b = true) k.data mid ∧
         (pre.getLast? = none ∨
           ∃ c, pre.getLast? = some c ∧ isWordChar c = false) ∧
         (rem.head? = none ∨
           ∃ c, rem.head? = some c ∧ isWordChar c = false)) ∧
    (wordCountJs (toLowerStr p) < 6 →
       (∀ k' ∈ codeKeywords, includesStr (toLowerStr p) k' = false) →
       classifyIntent p = "reason") := by
  constructor
  · intro hk h
    rw [keywordTest, hk] at h
    obtain ⟨pre, rest, hsplit, htest⟩ := scanFrom_sound [k.data] none p.data h
    unfold testAt at htest
    rw [Bool.and_eq_true] at htest
    obtain ⟨hprev, hmatch⟩ := htest
    have hmt : matchTokens [k.data] rest = (stripWord k.data rest).bind (matchTail []) := rfl
    rcases hrem : matchTokens [k.data] rest with _ | rem
    · rw [hrem] at hmatch
      simp at hmatch
    · have hstrip : stripWord k.data rest = some rem := by
        rw [hmt] at hrem
        rcases hsw : stripWord k.data rest with _ | r
        · rw [hsw] at hrem
          simp at hrem
        · rw [hsw] at hrem
          simpa [matchTail] using hrem
      obtain ⟨mid, hmid, hall⟩ := stripWord_sound k.data rest rem hstrip
      refine ⟨pre, mid, rem, by rw [hsplit, hmid]; rw [List.append_assoc], hall, ?_, ?_⟩
      · rcases hlast : pre.getLast? with _ | c
        · exact Or.inl rfl
        · refine Or.inr ⟨c, rfl, ?_⟩
          rw [hlast] at hprev
          simpa using hprev
      · rw [hrem] at hmatch
        cases rem with
        | nil => exact Or.inl rfl
        | cons c rs =>
          refine Or.inr ⟨c, rfl, ?_⟩
          simpa using hmatch
  · intro h1 h2
    have hany : (codeKeywords.any fun k' => includesStr (toLowerStr p) k') = false := by
      rw [List.any_eq_false]
      intro x hx
      simp [h2 x hx]
    simp [classifyIntent, hany, h1]

/-- Witness for the amended C5: the whole-word decomposition produced for
    the match of 'debug' in "debug rapid", and the reasoning default on
    the short input "why is", which contains no code keyword even as a
    substring. -/
theorem keyword_matching_amended_witness :
    (∃ pre mid rem, "debug rapid".data = pre ++ mid ++ rem ∧
       List.Forall₂ (fun a b => chEq a b = true) "debug".data mid ∧
       (pre.getLast? = none ∨
         ∃ c, pre.getLast? = some c ∧ isWordChar c = false) ∧
       (rem.head? = none ∨
         ∃ c, rem.head? = some c ∧ isWordChar c = false)) ∧
    classifyIntent "why is" = "reason" := by
  constructor
  · exact (keyword_matching_amended "debug" "debug rapid").1 (by decide) (by decide)
  · exact (keyword_matching_amended "debug" "why is").2 (by decide) (by decide)

/-! ### StreamDecoder — providers/openrouter.js `stream` (lines 82-159) -/

/-- One tool-call delta of a parsed stream event
    (`choice.delta.tool_calls[i]`): optional slot index and optional
    id / name / arguments fragments.  In the JS objects the last two are
    nested as `tc.function?.name` and `tc.function?.arguments`.  JS
    truthiness: an absent field and an empty string both fail the
    `if (tc.id)`-style guards, so empty strings are kept in the `Option`
    and re-tested. -/
structure TCDelta where
  index : Option Nat := none
  id : Option String := none
  fname : Option String := none
  fargs : Option String := none
  deriving Repr, DecidableEq

/-- One parsed `data:` payload, i.e. `JSON.parse(data).choices[0].delta`. -/
structure Delta where
  content : Option String := none
  tool_calls : Option (List TCDelta) := none
  deriving Repr, DecidableEq

/-- The empty slot pushed for indices beyond the current count
    (lines 130-136; `type: 'function'` is constant and flattened away). -/
def placeholderSlot : ToolCall := { id := "", name := "", arguments := "" }

/-- The `while (toolCalls.length <= idx) push(placeholder)` loop
    (lines 130-136): grow until `idx` is a valid index. -/
def ensureSlots (slots : List ToolCall) (idx : Nat) : List ToolCall :=
  slots ++ List.replicate (idx + 1 - slots.length) placeholderSlot

/-- Line 139, `if (tc.id) toolCalls[idx].id = tc.id`: a truthy id fragment
    overwrites. -/
def applyIdFrag (tc : TCDelta) (slot : ToolCall) : ToolCall :=
  match tc.id with
  | some s => if s.isEmpty then slot else { slot with id := s }
  | none => slot

/-- Line 140, `if (tc.function?.name) ... .name += tc.function.name`:
    a truthy name fragment is appended. -/
def applyNameFrag (tc : TCDelta) (slot : ToolCall) : ToolCall :=
  match tc.fname with
  | some s => if s.isEmpty then slot else { slot with name := slot.name ++ s }
  | none => slot

/-- Line 141, `if (tc.function?.arguments) ... .arguments += ...`:
    a truthy arguments fragment is appended. -/
def applyArgsFrag (tc : TCDelta) (slot : ToolCall) : ToolCall :=
  match tc.fargs with
  | some s => if s.isEmpty then slot else { slot with arguments := slot.arguments ++ s }
  | none => slot

/-- The three truthiness-guarded fragment updates on one slot, in source
    order (lines 139-141). -/
def applyFragment (tc : TCDelta) (slot : ToolCall) : ToolCall :=
  applyArgsFrag tc (applyNameFrag tc (applyIdFrag tc slot))

/-- One tool-call delta (lines 126-142): `const idx = tc.index || 0`, grow,
    then update slot `idx` in place. -/
def applyOneDelta (slots : List ToolCall) (tc : TCDelta) : List ToolCall :=
  let idx := tc.index.getD 0
  let grown := ensureSlots slots idx
  grown.set idx (applyFragment tc (grown.getD idx placeholderSlot))

/-- The `for (const tc of choice.delta.tool_calls)` loop. -/
def applyToolCallDeltas (slots : List ToolCall) (tcs : List TCDelta) : List ToolCall :=
  tcs.foldl applyOneDelta slots

/-- The decoder's accumulators: assistant text, tool-call slots (`null`
    until the first tool-call delta arrives), and the promise value once
    `[DONE]` resolved it. -/
structure DecodeAcc where
  assistantText : String
  toolCalls : Option (List ToolCall)
  resolved : Option (String × Option (List ToolCall))
  deriving Repr, DecidableEq

/-- The full decoder state: accumulators plus the SSE line buffer. -/
structure SSEState where
  acc : DecodeAcc
  buffer : List Char
  deriving Repr, DecidableEq

def initState : SSEState :=
  { acc := { assistantText := "", toolCalls := none, resolved := none }, buffer := [] }

/-- JS `line.trim()` (ASCII whitespace; stream content here is ASCII). -/
def trimChars (cs : List Char) : List Char :=
  ((cs.dropWhile isSpaceJs).reverse.dropWhile isSpaceJs).reverse

/-- Apply one parsed event payload (lines 115-144): a truthy (nonempty)
    content delta is appended to the text; a present `tool_calls` array —
    even an empty one — initialises the slot list if necessary and folds
    its deltas in. -/
def applyDelta (acc : DecodeAcc) (d : Delta) : DecodeAcc :=
  let a1 := match d.content with
    | some s => if s.isEmpty then acc else { acc with assistantText := acc.assistantText ++ s }
    | none => acc
  match d.tool_calls with
  | some tcs =>
      { a1 with toolCalls := some (applyToolCallDeltas (a1.toolCalls.getD []) tcs) }
  | none => a1

/-- Process one complete line (lines 94-152).  `JSON.parse` of the payload
    plus the `choices[0].delta` extraction is the host JSON library,
    abstracted as `parse`; `none` stands for the `catch {}` of malformed
    JSON and the missing-choice `continue`.  Once the promise has resolved
    its value is frozen — the JS handler keeps running on later chunks but
    nothing it does is observable — so the model skips lines after the
    resolve; the resolved snapshot is exactly the promise value. -/
def handleLine (parse : String → Option Delta) (acc : DecodeAcc) (raw : List Char) :
    DecodeAcc :=
  if acc.resolved.isSome then acc
  else
    let line := trimChars raw
    if line.isEmpty then acc
    else if !("data:".data.isPrefixOf line) then acc
    else
      let data : String := ⟨trimChars (line.drop 5)⟩
      if data = "[DONE]" then
        { acc with resolved := some (acc.assistantText, acc.toolCalls) }
      else
        match parse data with
        | none => acc
        | some d => applyDelta acc d

/-- Split a buffer into its complete lines and the newline-free remainder
    (lines 90-96: repeatedly cut at the first `\n`). -/
def extractLines : List Char → List (List Char) × List Char
  | [] => ([], [])
  | c :: rest =>
      let p := extractLines rest
      if c = '\n' then ([] :: p.1, p.2)
      else
        match p.1 with
        | [] => ([], c :: p.2)
        | l :: ls2 => ((c :: l) :: ls2, p.2)

/-- Feed one chunk (the `res.on('data')` handler, lines 86-154): append to
    the buffer, interpret every complete line in order, keep the
    incomplete trailing data buffered. -/
def feedChunk (parse : String → Option Delta) (st : SSEState) (chunk : List Char) :
    SSEState :=
  { acc := (extractLines (st.buffer ++ chunk)).1.foldl (handleLine parse) st.acc,
    buffer := (extractLines (st.buffer ++ chunk)).2 }

/-- The promise value: the `[DONE]`-time snapshot if the sentinel arrived,
    else the accumulators at transport end (lines 103-107, 156-159). -/
def streamResult (st : SSEState) : String × Option (List ToolCall) :=
  st.acc.resolved.getD (st.acc.assistantText, st.acc.toolCalls)

/-- A buffer with no complete line is returned whole as the remainder. -/
theorem extractLines_fst_nil (x : List Char) :
    (extractLines x).1 = [] → (extractLines x).2 = x := by
  induction x with
  | nil => intro _; rfl
  | cons c rest ih =>
    intro h
    by_cases hc : c = '\n'
    · simp [extractLines, hc] at h
    · rcases hrest : (extractLines rest).1 with _ | ⟨l, ls⟩
      · simp only [extractLines, if_neg hc, hrest]
        rw [ih hrest]
      · simp [extractLines, hc, hrest] at h

/-- The remainder never contains a newline. -/
theorem extractLines_snd_no_newline (x : List Char) :
    '\n' ∉ (extractLines x).2 := by
  induction x with
  | nil => simp [extractLines]
  | cons c rest ih =>
    by_cases hc : c = '\n'
    · simpa [extractLines, hc] using ih
    · rcases hrest : (extractLines rest).1 with _ | ⟨l, ls⟩
      · simp only [extractLines, if_neg hc, hrest]
        intro hmem
        rcases List.mem_cons.mp hmem with h | h
        · exact hc h.symm
        · exact ih h
      · simp only [extractLines, if_neg hc, hrest]
        exact ih

/-- Line extraction is compositional: extracting from `a ++ b` first takes
    the complete lines of `a`, then the lines of `a`'s remainder glued to
    `b`. -/
theorem extractLines_append (a b : List Char) :
    extractLines (a ++ b) =
      ((extractLines a).1 ++ (extractLines ((extractLines a).2 ++ b)).1,
       (extractLines ((extractLines a).2 ++ b)).2) := by
  induction a with
  | nil => simp [extractLines]
  | cons c a' ih =>
    by_cases hc : c = '\n'
    · simp only [List.cons_append, extractLines, List.append_eq, if_pos hc, ih]
    · rcases ha' : (extractLines a').1 with _ | ⟨l, ls⟩
      · have hr : (extractLines a').2 = a' := extractLines_fst_nil a' ha'
        simp only [List.cons_append, extractLines, List.append_eq, if_neg hc,
          ha', hr, List.nil_append]
      · simp only [List.cons_append, extractLines, List.append_eq, if_neg hc,
          ha', ih]

/-- Feeding composes over chunk concatenation. -/
theorem feedChunk_append (parse : String → Option Delta) (st : SSEState)
    (a b : List Char) :
    feedChunk parse (feedChunk parse st a) b = feedChunk parse st (a ++ b) := by
  simp only [feedChunk]
  rw [← List.append_assoc, extractLines_append (st.buffer ++ a) b]
  simp [List.foldl_append]

/-- Character-level chunking invariance of the line-buffered feed: for
    every line interpretation and every split of the decoded character
    stream into chunks, feeding the chunks one at a time from the initial
    state produces exactly the same decoder state as feeding the whole
    character stream as one chunk, and the leftover buffered data never
    contains a complete line.  (The per-chunk byte→string decode of the
    source sits in front of this layer; see the UTF-8 theorems below.) -/
theorem feedChunk_split_invariant (parse : String → Option Delta)
    (chunks : List (List Char)) :
    chunks.foldl (feedChunk parse) initState =
      feedChunk parse initState chunks.flatten ∧
    streamResult (chunks.foldl (feedChunk parse) initState) =
      streamResult (feedChunk parse initState chunks.flatten) ∧
    '\n' ∉ (chunks.foldl (feedChunk parse) initState).buffer := by
  have key : ∀ (cs : List (List Char)) (st : SSEState) (a : List Char),
      cs.foldl (feedChunk parse) (feedChunk parse st a) =
        feedChunk parse st (a ++ cs.flatten) := by
    intro cs
    induction cs with
    | nil => intro st a; simp
    | cons c cs ih =>
      intro st a
      rw [List.foldl_cons, feedChunk_append, ih st (a ++ c), List.flatten_cons,
        List.append_assoc]
  have main : chunks.foldl (feedChunk parse) initState =
      feedChunk parse initState chunks.flatten := by
    have h0 : feedChunk parse initState [] = initState := by
      simp [feedChunk, initState, extractLines]
    conv_lhs => rw [← h0]
    rw [key chunks initState [], List.nil_append]
  refine ⟨main, by rw [main], ?_⟩
  rw [main]
  simp only [feedChunk]
  exact extractLines_snd_no_newline _

/-! #### The per-chunk byte decode — providers/openrouter.js line 87

    `buffer += chunk.toString('utf8')`: each arriving chunk is a byte
    `Buffer` and is decoded to a string ON ITS OWN before being appended
    to the line buffer.  `Buffer.toString('utf8')` is WHATWG UTF-8
    decoding with maximal-subpart replacement: a well-formed sequence
    yields its code point; a stray continuation byte, an invalid lead, or
    a sequence cut short — by a bad byte or by the end of the chunk —
    yields U+FFFD.  A byte split inside a multi-byte character therefore
    decodes differently from the unsplit stream. -/

/-- The Unicode replacement character U+FFFD. -/
def replChar : Char := Char.ofNat 0xFFFD

/-- Is `x` a UTF-8 continuation byte (0x80-0xBF)? -/
def isContByte (x : Nat) : Bool := 0x80 ≤ x && x ≤ 0xBF

/-- Allowed range of the FIRST continuation byte after lead `b` (encodes
    the WHATWG overlong/surrogate/out-of-range exclusions). -/
def cont1Range (b : Nat) : Nat × Nat :=
  if b = 0xE0 then (0xA0, 0xBF)
  else if b = 0xED then (0x80, 0x9F)
  else if b = 0xF0 then (0x90, 0xBF)
  else if b = 0xF4 then (0x80, 0x8F)
  else (0x80, 0xBF)

/-- Is `x` within the first-continuation range of lead `b`? -/
def inCont1 (b x : Nat) : Bool := (cont1Range b).1 ≤ x && x ≤ (cont1Range b).2

/-- WHATWG UTF-8 decoding of one byte chunk (Node `Buffer.toString('utf8')`;
    bytes are < 256).  ASCII decodes to itself; leads 0xC2-0xDF/0xE0-0xEF/
    0xF0-0xF4 start 2/3/4-byte sequences; 0x80-0xC1 and 0xF5-0xFF are
    invalid and become U+FFFD; a failed continuation check emits U+FFFD
    and resumes at the offending byte; a sequence truncated by the end of
    the chunk emits a final U+FFFD. -/
def decodeUtf8 : List Nat → List Char
  | [] => []
  | b :: rest =>
    if b ≤ 0x7F then Char.ofNat b :: decodeUtf8 rest
    else if b < 0xC2 ∨ 0xF4 < b then replChar :: decodeUtf8 rest
    else if b ≤ 0xDF then
      match rest with
      | [] => [replChar]
      | b2 :: rest2 =>
        if inCont1 b b2 then
          Char.ofNat ((b - 0xC0) * 64 + (b2 - 0x80)) :: decodeUtf8 rest2
        else replChar :: decodeUtf8 (b2 :: rest2)
    else if b ≤ 0xEF then
      match rest with
      | [] => [replChar]
      | b2 :: rest2 =>
        if inCont1 b b2 then
          match rest2 with
          | [] => [replChar]
          | b3 :: rest3 =>
            if isContByte b3 then
              Char.ofNat (((b - 0xE0) * 64 + (b2 - 0x80)) * 64 + (b3 - 0x80)) ::
                decodeUtf8 rest3
            else replChar :: decodeUtf8 (b3 :: rest3)
        else replChar :: decodeUtf8 (b2 :: rest2)
    else
      match rest with
      | [] => [replChar]
      | b2 :: rest2 =>
        if inCont1 b b2 then
          match rest2 with
          | [] => [replChar]
          | b3 :: rest3 =>
            if isContByte b3 then
              match rest3 with
              | [] => [replChar]
              | b4 :: rest4 =>
                if isContByte b4 then
                  Char.ofNat ((((b - 0xF0) * 64 + (b2 - 0x80)) * 64 + (b3 - 0x80)) * 64 +
                      (b4 - 0x80)) :: decodeUtf8 rest4
                else replChar :: decodeUtf8 (b4 :: rest4)
            else replChar :: decodeUtf8 (b3 :: rest3)
        else replChar :: decodeUtf8 (b2 :: rest2)
termination_by l => l.length
decreasing_by all_goals (simp only [List.length_cons]; omega)

/-- Does the chunk end cleanly, i.e. its decode never runs off the end of
    the chunk in the middle of a multi-byte sequence?  (True exactly when
    the chunk boundary falls on a UTF-8 character boundary.) -/
def noTruncation : List Nat → Bool
  | [] => true
  | b :: rest =>
    if b ≤ 0x7F then noTruncation rest
    else if b < 0xC2 ∨ 0xF4 < b then noTruncation rest
    else if b ≤ 0xDF then
      match rest with
      | [] => false
      | b2 :: rest2 =>
        if inCont1 b b2 then noTruncation rest2 else noTruncation (b2 :: rest2)
    else if b ≤ 0xEF then
      match rest with
      | [] => false
      | b2 :: rest2 =>
        if inCont1 b b2 then
          match rest2 with
          | [] => false
          | b3 :: rest3 =>
            if isContByte b3 then noTruncation rest3 else noTruncation (b3 :: rest3)
        else noTruncation (b2 :: rest2)
    else
      match rest with
      | [] => false
      | b2 :: rest2 =>
        if inCont1 b b2 then
          match rest2 with
          | [] => false
          | b3 :: rest3 =>
            if isContByte b3 then
              match rest3 with
              | [] => false
              | b4 :: rest4 =>
                if isContByte b4 then noTruncation rest4 else noTruncation (b4 :: rest4)
            else noTruncation (b3 :: rest3)
        else noTruncation (b2 :: rest2)
termination_by l => l.length
decreasing_by all_goals (simp only [List.length_cons]; omega)

/-- Feed one raw byte chunk: decode it by itself (line 87), then run the
    line-buffered feed on the resulting characters. -/
def feedByteChunk (parse : String → Option Delta) (st : SSEState)
    (chunk : List Nat) : SSEState :=
  feedChunk parse st (decodeUtf8 chunk)

example : decodeUtf8 [100, 97, 116, 97] = "data".data := by
  simp [decodeUtf8, inCont1, cont1Range, isContByte]
example : decodeUtf8 [195, 169] = [Char.ofNat 233] := by
  simp [decodeUtf8, inCont1, cont1Range, isContByte]
example : decodeUtf8 [195] = [replChar] := by
  simp [decodeUtf8, inCont1, cont1Range, isContByte]
example : decodeUtf8 [169] = [replChar] := by
  simp [decodeUtf8, inCont1, cont1Range, isContByte]
example : noTruncation [195, 169] = true := by
  simp [noTruncation, inCont1, cont1Range, isContByte]
example : noTruncation [195] = false := by
  simp [noTruncation, inCont1, cont1Range, isContByte]

/-- Decoding distributes over concatenation when the first chunk ends on a
    character boundary. -/
theorem decodeUtf8_append (ys : List Nat) :
    ∀ a : List Nat, noTruncation a = true →
      decodeUtf8 (a ++ ys) = decodeUtf8 a ++ decodeUtf8 ys := by
  intro a
  induction a using decodeUtf8.induct with
  | case1 =>
    intro _
    conv_rhs => rw [decodeUtf8.eq_def]
    simp
  | case2 b rest hb ih =>
    intro h
    rw [noTruncation.eq_def] at h
    simp only [hb, if_pos] at h
    simp only [List.cons_append]
    rw [decodeUtf8.eq_def]
    conv_rhs => rw [decodeUtf8.eq_def]
    simp [hb, ih h]
  | case3 b rest hb hinv ih =>
    intro h
    rw [noTruncation.eq_def] at h
    simp only [hb, hinv, if_pos, if_neg, not_false_eq_true] at h
    simp only [List.cons_append]
    rw [decodeUtf8.eq_def]
    conv_rhs => rw [decodeUtf8.eq_def]
    simp [hb, hinv, ih h]
  | case4 b hb hr h2 =>
    intro h
    rw [noTruncation.eq_def] at h
    simp [hb, hr, h2] at h
  | case5 b hb hr h2 b2 rest2 hc ih =>
    intro h
    rw [noTruncation.eq_def] at h
    simp only [hb, hr, h2, hc, if_pos, if_neg, not_false_eq_true] at h
    simp only [List.cons_append]
    rw [decodeUtf8.eq_def]
    conv_rhs => rw [decodeUtf8.eq_def]
    simp [hb, hr, h2, hc, ih h]
  | case6 b hb hr h2 b2 rest2 hc ih =>
    intro h
    rw [noTruncation.eq_def] at h
    simp only [hb, hr, h2, hc, if_pos, if_neg, not_false_eq_true,
      Bool.false_eq_true] at h
    simp only [List.cons_append]
    rw [decodeUtf8.eq_def]
    conv_rhs => rw [decodeUtf8.eq_def]
    simp [hb, hr, h2, hc]
    exact ih h
  | case7 b hb hr h2 h3 =>
    intro h
    rw [noTruncation.eq_def] at h
    simp [hb, hr, h2, h3] at h
  | case8 b hb hr h2 h3 b2 hc =>
    intro h
    rw [noTruncation.eq_def] at h
    simp [hb, hr, h2, h3, hc] at h
  | case9 b hb hr h2 h3 b2 hc b3 rest3 hc3 ih =>
    intro h
    rw [noTruncation.eq_def] at h
    simp only [hb, hr, h2, h3, hc, hc3, if_pos, if_neg, not_false_eq_true] at h
    simp only [List.cons_append]
    rw [decodeUtf8.eq_def]
    conv_rhs => rw [decodeUtf8.eq_def]
    simp [hb, hr, h2, h3, hc, hc3, ih h]
  | case10 b hb hr h2 h3 b2 hc b3 rest3 hc3 ih =>
    intro h
    rw [noTruncation.eq_def] at h
    simp only [hb, hr, h2, h3, hc, hc3, if_pos, if_neg, not_false_eq_true,
      Bool.false_eq_true] at h
    simp only [List.cons_append]
    rw [decodeUtf8.eq_def]
    conv_rhs => rw [decodeUtf8.eq_def]
    simp [hb, hr, h2, h3, hc, hc3]
    exact ih h
  | case11 b hb hr h2 h3 b2 rest2 hc ih =>
    intro h
    rw [noTruncation.eq_def] at h
    simp only [hb, hr, h2, h3, hc, if_pos, if_neg, not_false_eq_true,
      Bool.false_eq_true] at h
    simp only [List.cons_append]
    rw [decodeUtf8.eq_def]
    conv_rhs => rw [decodeUtf8.eq_def]
    simp [hb, hr, h2, h3, hc]
    exact ih h
  | case12 b hb hr h2 h3 =>
    intro h
    rw [noTruncation.eq_def] at h
    simp [hb, hr, h2, h3] at h
  | case13 b hb hr h2 h3 b2 hc =>
    intro h
    rw [noTruncation.eq_def] at h
    simp [hb, hr, h2, h3, hc] at h
  | case14 b hb hr h2 h3 b2 hc b3 hc3 =>
    intro h
    rw [noTruncation.eq_def] at h
    simp [hb, hr, h2, h3, hc, hc3] at h
  | case15 b hb hr h2 h3 b2 hc b3 hc3 b4 rest4 hc4 ih =>
    intro h
    rw [noTruncation.eq_def] at h
    simp only [hb, hr, h2, h3, hc, hc3, hc4, if_pos, if_neg,
      not_false_eq_true] at h
    simp only [List.cons_append]
    rw [decodeUtf8.eq_def]
    conv_rhs => rw [decodeUtf8.eq_def]
    simp [hb, hr, h2, h3, hc, hc3, hc4, ih h]
  | case16 b hb hr h2 h3 b2 hc b3 hc3 b4 rest4 hc4 ih =>
    intro h
    rw [noTruncation.eq_def] at h
    simp only [hb, hr, h2, h3, hc, hc3, hc4, if_pos, if_neg, not_false_eq_true,
      Bool.false_eq_true] at h
    simp only [List.cons_append]
    rw [decodeUtf8.eq_def]
    conv_rhs => rw [decodeUtf8.eq_def]
    simp [hb, hr, h2, h3, hc, hc3, hc4]
    exact ih h
  | case17 b hb hr h2 h3 b2 hc b3 rest3 hc3 ih =>
    intro h
    rw [noTruncation.eq_def] at h
    simp only [hb, hr, h2, h3, hc, hc3, if_pos, if_neg, not_false_eq_true,
      Bool.false_eq_true] at h
    simp only [List.cons_append]
    rw [decodeUtf8.eq_def]
    conv_rhs => rw [decodeUtf8.eq_def]
    simp [hb, hr, h2, h3, hc, hc3]
    exact ih h
  | case18 b hb hr h2 h3 b2 rest2 hc ih =>
    intro h
    rw [noTruncation.eq_def] at h
    simp only [hb, hr, h2, h3, hc, if_pos, if_neg, not_false_eq_true,
      Bool.false_eq_true] at h
    simp only [List.cons_append]
    rw [decodeUtf8.eq_def]
    conv_rhs => rw [decodeUtf8.eq_def]
    simp [hb, hr, h2, h3, hc]
    exact ih h

/-- Per-chunk decoding of a stream whose chunks all end on character
    boundaries equals decoding the whole stream at once. -/
theorem decodeUtf8_flatten (chunks : List (List Nat))
    (h : ∀ c ∈ chunks, noTruncation c = true) :
    decodeUtf8 chunks.flatten = (chunks.map decodeUtf8).flatten := by
  induction chunks with
  | nil =>
    rw [List.flatten_nil, decodeUtf8.eq_def]
    rfl
  | cons c cs ih =>
    rw [List.flatten_cons, decodeUtf8_append cs.flatten c (h c (by simp)),
      List.map_cons, List.flatten_cons,
      ih fun x hx => h x (List.mem_cons_of_mem c hx)]

theorem applyIdFrag_name (tc : TCDelta) (t : ToolCall) :
    (applyIdFrag tc t).name = t.name := by
  rcases h : tc.id with _ | d
  · simp only [applyIdFrag, h]
  · simp only [applyIdFrag, h]
    split <;> rfl

theorem applyIdFrag_arguments (tc : TCDelta) (t : ToolCall) :
    (applyIdFrag tc t).arguments = t.arguments := by
  rcases h : tc.id with _ | d
  · simp only [applyIdFrag, h]
  · simp only [applyIdFrag, h]
    split <;> rfl

theorem applyNameFrag_name (tc : TCDelta) (t : ToolCall) :
    (applyNameFrag tc t).name = t.name ++ tc.fname.getD "" := by
  rcases h : tc.fname with _ | n
  · simp only [applyNameFrag, h, Option.getD_none]
    exact (String.append_empty t.name).symm
  · simp only [applyNameFrag, h, Option.getD_some]
    by_cases hn : n.isEmpty
    · rw [if_pos hn, (String.isEmpty_iff n).mp hn, String.append_empty]
    · rw [if_neg hn]

theorem applyNameFrag_arguments (tc : TCDelta) (t : ToolCall) :
    (applyNameFrag tc t).arguments = t.arguments := by
  rcases h : tc.fname with _ | n
  · simp only [applyNameFrag, h]
  · simp only [applyNameFrag, h]
    split <;> rfl

theorem applyArgsFrag_name (tc : TCDelta) (t : ToolCall) :
    (applyArgsFrag tc t).name = t.name := by
  rcases h : tc.fargs with _ | a
  · simp only [applyArgsFrag, h]
  · simp only [applyArgsFrag, h]
    split <;> rfl

theorem applyArgsFrag_arguments (tc : TCDelta) (t : ToolCall) :
    (applyArgsFrag tc t).arguments = t.arguments ++ tc.fargs.getD "" := by
  rcases h : tc.fargs with _ | a
  · simp only [applyArgsFrag, h, Option.getD_none]
    exact (String.append_empty t.arguments).symm
  · simp only [applyArgsFrag, h, Option.getD_some]
    by_cases ha : a.isEmpty
    · rw [if_pos ha, (String.isEmpty_iff a).mp ha, String.append_empty]
    · rw [if_neg ha]

/-- C3: a delta referencing a slot index beyond the current count grows
    the list with placeholder slots exactly up to that index (so slots 0
    then 2 produce three slots with slot 1 the empty placeholder), and
    within a slot the name and arguments fragments are appended to the
    existing strings, never overwritten. -/
theorem toolcall_slot_gaps (slots : List ToolCall) (tc : TCDelta) (i : Nat) :
    (slots.length ≤ tc.index.getD 0 →
       (applyOneDelta slots tc).length = tc.index.getD 0 + 1) ∧
    (slots.length ≤ i → i < tc.index.getD 0 →
       (applyOneDelta slots tc)[i]? = some placeholderSlot) ∧
    (tc.index.getD 0 < slots.length →
       (applyOneDelta slots tc)[tc.index.getD 0]? =
         some (applyFragment tc (slots.getD (tc.index.getD 0) placeholderSlot))) ∧
    (∀ s : ToolCall,
       (applyFragment tc s).name = s.name ++ tc.fname.getD "" ∧
       (applyFragment tc s).arguments = s.arguments ++ tc.fargs.getD "") ∧
    applyToolCallDeltas (applyToolCallDeltas []
        [{ index := some 0, id := some "a", fname := some "f", fargs := some "x" }])
      [{ index := some 2, id := some "b", fname := some "g", fargs := some "y" }] =
    [{ id := "a", name := "f", arguments := "x" }, placeholderSlot,
     { id := "b", name := "g", arguments := "y" }] := by
  have hgrow : ∀ idx, (ensureSlots slots idx).length = max slots.length (idx + 1) := by
    intro idx
    simp [ensureSlots]
    omega
  refine ⟨?_, ?_, ?_, ?_, by decide⟩
  · intro h
    simp only [applyOneDelta, List.length_set, hgrow]
    omega
  · intro h1 h2
    have hne : tc.index.getD 0 ≠ i := by omega
    rw [applyOneDelta, List.getElem?_set_ne hne, ensureSlots,
      List.getElem?_append_right h1, List.getElem?_replicate]
    simp only [if_pos (by omega : i - slots.length < tc.index.getD 0 + 1 - slots.length)]
  · intro h
    have hz : tc.index.getD 0 + 1 - slots.length = 0 := by omega
    have hgs : ensureSlots slots (tc.index.getD 0) = slots := by
      simp [ensureSlots, hz]
    rw [applyOneDelta, hgs, List.getElem?_set_eq_of_lt _ (by simpa using h)]
  · intro s
    constructor
    · rw [applyFragment, applyArgsFrag_name, applyNameFrag_name, applyIdFrag_name]
    · rw [applyFragment, applyArgsFrag_arguments, applyNameFrag_arguments,
        applyIdFrag_arguments]

/-- Witness for C3: a delta for slot 2 arriving when no slots exist yields
    exactly three slots with slot 1 a placeholder, and fragments appended
    onto an existing slot concatenate. -/
theorem toolcall_slot_gaps_witness :
    (applyOneDelta [] { index := some 2, id := some "b" }).length = 3 ∧
    (applyOneDelta [] { index := some 2, id := some "b" })[1]? = some placeholderSlot ∧
    (applyFragment { fname := some "oo", fargs := some "y" }
        { id := "c", name := "f", arguments := "x" }).name = "foo" ∧
    (applyFragment { fname := some "oo", fargs := some "y" }
        { id := "c", name := "f", arguments := "x" }).arguments = "xy" := by
  have h0 := toolcall_slot_gaps [] { index := some 2, id := some "b" } 1
  have h1 := toolcall_slot_gaps [] { fname := some "oo", fargs := some "y" } 0
  refine ⟨?_, h0.2.1 (by decide) (by decide), ?_, ?_⟩
  · exact (h0.1 (by decide)).trans (by decide)
  · exact ((h1.2.2.2.1 { id := "c", name := "f", arguments := "x" }).1).trans (by decide)
  · exact ((h1.2.2.2.1 { id := "c", name := "f", arguments := "x" }).2).trans (by decide)

example :
    streamResult (List.foldl
      (feedChunk (fun s => if s = "ev" then some { content := some "hi" } else none))
      initState
      ["da".data, "ta: ev\nda".data, "ta: [DONE]\nleft".data]) = ("hi", none) := by
  decide

/-! ### AgentLoop provider-call step — core/agent.js lines 104-140 -/

/-- agent.js line 117: the capacity/quota/authorization-limit signature
    test on the thrown error's message. -/
def isCapacitySig (msg : String) : Bool :=
  includesStr msg "402" || includesStr msg "429" || includesStr msg "Insufficient"

/-- agent.js lines 120-123: the mode-appropriate free fallback model
    (sequential reassignments of `let fallbackModel`). -/
def fallbackModelFor (mode : String) : String :=
  let fb := "mistralai/mistral-small-3.1-24b-instruct:free"
  let fb := if mode = "code" then "qwen/qwen3-coder:free" else fb
  if mode = "plan" || mode = "reason" then "meta-llama/llama-3.3-70b-instruct:free"
  else fb

/-- The `try`/`catch` around the streaming call (agent.js lines 104-140).
    `stream` abstracts `openrouter.stream` applied to the current messages
    and tools: it resolves with a response or throws the provider error
    message.  On a capacity signature the source executes
    `model = fallbackModel` (line 126) — but `model` is a `const`
    destructuring binding (line 35: `const { model, mode, routed } =
    router.route(prompt);`) and the file is in strict mode, so that
    assignment itself throws `TypeError: Assignment to constant variable.`
    inside the catch block, before the retry call on lines 129-136 can
    run; the TypeError propagates to the caller.  A non-capacity error is
    re-thrown unchanged (line 138). -/
def streamWithFallback (stream : String → Except String (String × Option (List ToolCall)))
    (model mode : String) : Except String (String × Option (List ToolCall)) :=
  match stream model with
  | .ok r => .ok r
  | .error e =>
      if isCapacitySig e then
        -- lines 120-125 still run: the fallback is computed and the
        -- notice printed; the crash happens at the assignment on line 126.
        let _fallbackModel := fallbackModelFor mode
        .error "TypeError: Assignment to constant variable."
      else .error e

/-- C1 (code bug): at a concrete provider stub that throws a 402
    capacity error for the routed model while the mode-appropriate
    fallback model would succeed, the loop does not substitute the
    fallback and retry — it fails with the TypeError raised by the
    reassignment of the `const` binding `model`, so the claimed recovery
    never happens; a non-capacity error (401) propagates unchanged. -/
theorem capacity_fallback_code_bug :
    streamWithFallback
        (fun m => if m = fallbackModelFor "code" then .ok ("ok", none)
                  else .error "API error (402): Insufficient credits")
        "openai/gpt-4o" "code" =
      .error "TypeError: Assignment to constant variable." ∧
    (fun m => if m = fallbackModelFor "code" then
                (.ok (("ok", none)) : Except String (String × Option (List ToolCall)))
              else .error "API error (402): Insufficient credits")
      (fallbackModelFor "code") = .ok ("ok", none) ∧
    streamWithFallback (fun _ => .error "API error (401): Unauthorized")
        "openai/gpt-4o" "code" =
      .error "API error (401): Unauthorized" :=
  ⟨rfl, rfl, rfl⟩

end ZayCode
